import Mathlib

/-!
Shallow embedding of the tableflip upgrade coordinator (Go) in Lean 4.

The definitions below are translated from the repository's source files:
`child.go` (startChild, writeNames), the parent decoder (`newParent`,
`sendReady`, the fd-4 drain goroutine), `fds.go` (the `Fds` registry,
`closeInherited`, `closeUsed`, `closeAndRemoveUsed`, `unlinkUnixSocket`),
and the upgrader (`Ready`, `Stop`, `Upgrade`, `run`, `WaitForParent`).

Go values are modelled as follows: `os.File` handles become opaque `Nat`
identifiers, Go maps become association lists with overwrite-on-insert
(so a lookup sees the last insertion), Go `nil` slices become
`Option (List _)` with `none` for the nil slice, and errors become an
explicit inductive type. Channel-based control flow (the `run` event
loop, `select` statements) is modelled by explicit event traces and an
explicit choice among the ready branches of a `select`.
-/

namespace Tableflip

/-- Identity of an `os.File` handle.  Only identity matters for the
properties proved here, so a numeric label suffices. -/
abbrev GoFile := Nat

/-- The Go `fileName [3]string` triple `(kind, network, address)` from
`fds.go`. -/
structure FileName where
  kind : String
  net : String
  addr : String
deriving DecidableEq, Repr

/-- Errors that the modelled code paths can return; one constructor per
distinct error identity in the source. -/
inductive GoError where
  | notSupported
  | terminating
  | alreadyUpgraded
  | notReady
  | parentNotExited
  | upgradeInProgress
  | unexpectedData
  | copyFailed
  | statFailed
  | pidWriteFailed
  | fileAlreadyClosed
deriving DecidableEq, Repr

/-- `listenKind` constant from `fds.go`. -/
def listenKind : String := "listener"

/-- `packetKind` constant from `fds.go`. -/
def packetKind : String := "packet"

/-- `connKind` constant from `fds.go`. -/
def connKind : String := "conn"

/-- `fdKind` constant from `fds.go`. -/
def fdKind : String := "fd"

/-- `fileName.isUnix` from `fds.go`: listener/unix, listener/unixpacket
and packet/unixgram are Unix-socket-class names. -/
def FileName.isUnix (name : FileName) : Bool :=
  if name.kind = listenKind ∧ (name.net = "unix" ∨ name.net = "unixpacket") then
    true
  else if name.kind = packetKind ∧ name.net = "unixgram" then
    true
  else
    false

/-- The sentinel environment variable name (`sentinelEnvVar`). -/
def sentinelEnvVar : String := "TABLEFLIP_HAS_PARENT_7DIU3"

/-- The exact sentinel assignment `fmt.Sprintf("%s=yes", sentinelEnvVar)`
built by `startChild`. -/
def sentinelAssignment : String := sentinelEnvVar ++ "=yes"

/-- Child environment construction from `startChild`: keep every entry of
the current environment that is not the exact sentinel assignment, then
append the sentinel assignment. -/
def childEnviron (environ : List String) : List String :=
  environ.filter (fun val => val ≠ sentinelAssignment) ++ [sentinelAssignment]

/-- Go `strings.HasPrefix`, phrased over the character list so that it
evaluates inside the kernel. -/
def strHasPrefix (s pre : String) : Bool :=
  pre.data.isPrefixOf s.data

/-- An environment entry belongs to the sentinel variable when it starts
with `TABLEFLIP_HAS_PARENT_7DIU3=`, whatever the value after `=`. -/
def isSentinelVarEntry (val : String) : Bool :=
  strHasPrefix val (sentinelEnvVar ++ "=")

/-- A Go slice, distinguishing the `nil` slice from a non-nil (possibly
empty) slice.  `startChild` declares `var fdNames [][]string`, which is
`nil` until the first `append`. -/
inductive GoSlice (α : Type) where
  | nil
  | mk (elems : List α)
deriving DecidableEq, Repr

/-- Go `append` on a slice: appending to the nil slice allocates a fresh
non-nil slice. -/
def goAppend {α : Type} : GoSlice α → α → GoSlice α
  | .nil, x => .mk [x]
  | .mk l, x => .mk (l ++ [x])

/-- The name tuple `startChild` encodes for one passed file:
`nameSlice := make([]string, len(name)); copy(nameSlice, name[:])`
copies exactly the three components. -/
def nameSlice (name : FileName) : List String :=
  [name.kind, name.net, name.addr]

/-- The `fdNames` slice built by the loop in `startChild`, starting from
the nil slice and appending one name tuple per passed file, in the
iteration order of the `passedFiles` map (given here as a list). -/
def startChildFdNames (passedFiles : List (FileName × GoFile)) : GoSlice (List String) :=
  passedFiles.foldl (fun acc p => goAppend acc (nameSlice p.1)) .nil

/-- The value `child.writeNames` hands to `enc.Encode`: the nil slice is
replaced by an allocated empty slice (gob rejects nil), any other slice
is encoded as is. -/
def writeNamesEncodeArg : GoSlice (List String) → GoSlice (List String)
  | .nil => .mk []
  | .mk l => .mk l

/-- The list of name tuples actually serialized onto the names pipe. -/
def encodedNames (passedFiles : List (FileName × GoFile)) : List (List String) :=
  match writeNamesEncodeArg (startChildFdNames passedFiles) with
  | .nil => []
  | .mk l => l

/-- The extra-fd list `startChild` passes to the spawned process:
`[os.Stdin, os.Stdout, os.Stderr, readyW, namesR]` followed by the
passed files in map iteration order.  Index `i` of this list becomes fd
number `i` in the child (`syscall.ProcAttr.Files`). -/
def startChildFds (std : List GoFile) (passedFiles : List (FileName × GoFile)) : List GoFile :=
  std ++ passedFiles.map Prod.snd

/-! ### Go map model

Go maps are modelled as association lists.  Assignment `m[k] = v`
removes any previous binding of `k` and conses the new one, so lookups
are order-independent; `buildMap` replays a list of assignments in
program order. -/

/-- Lookup in the association-list model of a Go map. -/
def mapLookup {α : Type} : List (FileName × α) → FileName → Option α
  | [], _ => none
  | (k2, v) :: rest, k => if k = k2 then some v else mapLookup rest k

/-- `delete(m, k)` on the association-list model. -/
def mapDelete {α : Type} (m : List (FileName × α)) (k : FileName) : List (FileName × α) :=
  m.filter (fun p => p.1 ≠ k)

/-- Assignment `m[k] = v` on the association-list model. -/
def mapSet {α : Type} (m : List (FileName × α)) (k : FileName) (v : α) : List (FileName × α) :=
  (k, v) :: mapDelete m k

/-- Replay a list of Go map assignments, in order, onto the empty map. -/
def buildMap {α : Type} (entries : List (FileName × α)) : List (FileName × α) :=
  entries.foldl (fun m p => mapSet m p.1 p.2) []

/-- The binding a sequence of Go map assignments leaves for a key: the
last assignment to that key wins. -/
def lookupLast {α : Type} : List (FileName × α) → FileName → Option α
  | [], _ => none
  | (k2, v) :: rest, k =>
      match lookupLast rest k with
      | some v2 => some v2
      | none => if k = k2 then some v else none

/-- Key list of an association-list map. -/
def mapKeys {α : Type} (m : List (FileName × α)) : List FileName :=
  m.map Prod.fst

/-! ### Parent-side decoding (`newParent`) -/

/-- `var key fileName; copy(key[:], parts)`: the decoded slice fills the
array from the front, missing components stay the zero string. -/
def fileNameOfSlice (parts : List String) : FileName :=
  { kind := parts.getD 0 "", net := parts.getD 1 "", addr := parts.getD 2 "" }

/-- The open file a child observes at fd number `fd`: entry `fd` of the
`ProcAttr.Files` list the parent passed to `StartProcess`. -/
def inheritedAt (fds : List GoFile) (fd : Nat) : Option GoFile :=
  fds.get? fd

/-- The assignments the loop in `newParent` performs, starting at index
`i`: for the `i`-th decoded name tuple, bind the reconstructed key to fd
number `5 + i` (and, in this model, to the file inherited at that fd). -/
def newParentEntries (fds : List GoFile) : Nat → List (List String) →
    List (FileName × (Nat × Option GoFile))
  | _, [] => []
  | i, parts :: rest =>
      (fileNameOfSlice parts, (5 + i, inheritedAt fds (5 + i))) ::
        newParentEntries fds (i + 1) rest

/-- The `files` map `newParent` builds from the decoded name list. -/
def newParentFiles (fds : List GoFile) (names : List (List String)) :
    List (FileName × (Nat × Option GoFile)) :=
  buildMap (newParentEntries fds 0 names)

/-! ### The `Fds` registry (`fds.go`)

The two maps `inherited` and `used`, and every exported operation that
touches them.  External failure points (a `net.FileListener` conversion,
a dup, a fresh listen) are oracles: a `Bool` saying whether that step
succeeded, plus the duplicated/created file where one is inserted.  Every
failing branch in the source leaves the maps untouched. -/

/-- The `Fds` pair of maps. -/
structure FdsState where
  inherited : List (FileName × GoFile)
  used : List (FileName × GoFile)
deriving DecidableEq, Repr

/-- `newFds`: the used map starts empty. -/
def newFdsState (inherited : List (FileName × GoFile)) : FdsState :=
  { inherited := inherited, used := [] }

/-- The shared move step `delete(f.inherited, key); f.used[key] = file`
that ends `listenerLocked`, `packetConnLocked`, `Conn`, `File`,
`addSyscallConnLocked` and `AddFile`. -/
def moveToUsed (s : FdsState) (key : FileName) (fl : GoFile) : FdsState :=
  { inherited := mapDelete s.inherited key, used := mapSet s.used key fl }

/-- One call to an `Fds` operation, with its oracle outcomes.
`convOk` models the `net.FileListener` / `net.FilePacketConn` /
`net.FileConn` conversion succeeding, `createOk` bundles the success of
creating a fresh socket, the interface assertion and the dup into
`used`, `dupOk` models `dupConn` / `dupFd` / `dupFile` succeeding, and
`newF` is the file inserted on success. -/
inductive FdsOp where
  | listen (network addr : String) (convOk createOk : Bool) (newF : GoFile)
  | listenWithCallback (network addr : String) (convOk createOk : Bool) (newF : GoFile)
  | listener (network addr : String) (convOk : Bool)
  | listenPacket (network addr : String) (convOk createOk : Bool) (newF : GoFile)
  | listenPacketWithCallback (network addr : String) (convOk createOk : Bool) (newF : GoFile)
  | packetConn (network addr : String) (convOk : Bool)
  | conn (network addr : String) (convOk : Bool)
  | file (name : String) (dupOk : Bool)
  | addListener (network addr : String) (dupOk : Bool) (newF : GoFile)
  | addPacketConn (network addr : String) (dupOk : Bool) (newF : GoFile)
  | addConn (network addr : String) (dupOk : Bool) (newF : GoFile)
  | addFile (name : String) (dupOk : Bool) (newF : GoFile)
  | closeInherited
  | closeUsed
  | closeAndRemoveUsed
deriving DecidableEq, Repr

/-- `listenerLocked` (and `packetConnLocked`, and the body of `Conn`):
look the key up in `inherited`; absent means "nothing inherited" and no
change; a failed conversion errors with no change; success moves the
entry to `used`. -/
def retrieveLocked (s : FdsState) (key : FileName) (convOk : Bool) : FdsState :=
  match mapLookup s.inherited key with
  | none => s
  | some fl => if convOk then moveToUsed s key fl else s

/-- Whether `listenerLocked` returned a non-nil listener (so `Listen`
stops) or `nil, nil` (so `Listen` goes on to create a fresh socket).
An error from `listenerLocked` also stops `Listen`. -/
def retrieveStops (s : FdsState) (key : FileName) : Bool :=
  (mapLookup s.inherited key).isSome

/-- `Listen`-shaped operations: try the inherited entry first; only when
nothing was inherited, create a fresh socket and dup it into `used`
(`addListenerLocked` / `addSyscallConnLocked`). -/
def listenOp (s : FdsState) (key : FileName) (convOk createOk : Bool) (newF : GoFile) : FdsState :=
  if retrieveStops s key then retrieveLocked s key convOk
  else if createOk then moveToUsed s key newF
  else s

/-- `addSyscallConnLocked` / `AddFile`: dup the supplied object; on
success remove the key from `inherited` and bind the dup in `used`. -/
def addOp (s : FdsState) (key : FileName) (dupOk : Bool) (newF : GoFile) : FdsState :=
  if dupOk then moveToUsed s key newF else s

/-- State effect of one `Fds` operation, translated case by case from
`fds.go`. -/
def applyOp (s : FdsState) : FdsOp → FdsState
  | .listen network addr convOk createOk newF =>
      listenOp s ⟨listenKind, network, addr⟩ convOk createOk newF
  | .listenWithCallback network addr convOk createOk newF =>
      listenOp s ⟨listenKind, network, addr⟩ convOk createOk newF
  | .listener network addr convOk =>
      retrieveLocked s ⟨listenKind, network, addr⟩ convOk
  | .listenPacket network addr convOk createOk newF =>
      listenOp s ⟨packetKind, network, addr⟩ convOk createOk newF
  | .listenPacketWithCallback network addr convOk createOk newF =>
      listenOp s ⟨packetKind, network, addr⟩ convOk createOk newF
  | .packetConn network addr convOk =>
      retrieveLocked s ⟨packetKind, network, addr⟩ convOk
  | .conn network addr convOk =>
      retrieveLocked s ⟨connKind, network, addr⟩ convOk
  | .file name dupOk =>
      retrieveLocked s ⟨fdKind, name, ""⟩ dupOk
  | .addListener network addr dupOk newF =>
      addOp s ⟨listenKind, network, addr⟩ dupOk newF
  | .addPacketConn network addr dupOk newF =>
      addOp s ⟨packetKind, network, addr⟩ dupOk newF
  | .addConn network addr dupOk newF =>
      addOp s ⟨connKind, network, addr⟩ dupOk newF
  | .addFile name dupOk newF =>
      addOp s ⟨fdKind, name, ""⟩ dupOk newF
  | .closeInherited => { s with inherited := [] }
  | .closeUsed => { s with used := [] }
  | .closeAndRemoveUsed => { s with used := [] }

/-- Replay a sequence of `Fds` operations. -/
def applyOps (s : FdsState) (ops : List FdsOp) : FdsState :=
  ops.foldl applyOp s

/-- The registry invariant: no name is present in both maps. -/
def DisjointMaps (s : FdsState) : Prop :=
  ∀ k ∈ mapKeys s.inherited, k ∉ mapKeys s.used

instance (s : FdsState) : Decidable (DisjointMaps s) :=
  List.decidableBAll _ _

/-! ### Teardown and `unlinkUnixSocket` -/

/-- Outcome of the `os.Stat` call inside `unlinkUnixSocket`. -/
inductive StatResult where
  | statErr
  | okNonSocket
  | okSocket
deriving DecidableEq, Repr

/-- What one call to `unlinkUnixSocket` did. -/
structure UnlinkOutcome where
  err : Option GoError
  removed : Bool
  statted : Bool
deriving DecidableEq, Repr

/-- `unlinkUnixSocket` from `fds.go`.  `goosLinux` is
`runtime.GOOS == "linux"`; `stat` is the filesystem oracle.  On Linux an
abstract-namespace path (leading `@`) returns nil immediately, without
even calling `os.Stat`; a stat error is returned; a non-socket mode
returns nil without removing; only socket mode reaches `os.Remove`. -/
def unlinkUnixSocket (goosLinux : Bool) (stat : String → StatResult) (path : String) :
    UnlinkOutcome :=
  if goosLinux ∧ strHasPrefix path "@" then
    { err := none, removed := false, statted := false }
  else
    match stat path with
    | .statErr => { err := some .statFailed, removed := false, statted := true }
    | .okNonSocket => { err := none, removed := false, statted := true }
    | .okSocket => { err := none, removed := true, statted := true }

/-- Observable effects of one of the three teardown loops. -/
structure CloseEffects where
  closed : List GoFile
  unlinkCalls : List String
  removed : List String
deriving DecidableEq, Repr

/-- The loop body of `Fds.closeInherited`: for each entry, a
Unix-socket-class key first goes through `unlinkUnixSocket(key[2])`,
then the file is closed. -/
def closeInheritedEntries (goosLinux : Bool) (stat : String → StatResult) :
    List (FileName × GoFile) → CloseEffects
  | [] => { closed := [], unlinkCalls := [], removed := [] }
  | (key, fl) :: rest =>
      let tail := closeInheritedEntries goosLinux stat rest
      if key.isUnix then
        let u := unlinkUnixSocket goosLinux stat key.addr
        { closed := fl :: tail.closed,
          unlinkCalls := key.addr :: tail.unlinkCalls,
          removed := if u.removed then key.addr :: tail.removed else tail.removed }
      else
        { closed := fl :: tail.closed,
          unlinkCalls := tail.unlinkCalls,
          removed := tail.removed }

/-- The loop body of `Fds.closeUsed`: close every entry, no unlinking. -/
def closeUsedEntries : List (FileName × GoFile) → CloseEffects
  | [] => { closed := [], unlinkCalls := [], removed := [] }
  | (_, fl) :: rest =>
      let tail := closeUsedEntries rest
      { closed := fl :: tail.closed,
        unlinkCalls := tail.unlinkCalls,
        removed := tail.removed }

/-- The loop body of `Fds.closeAndRemoveUsed`: same shape as
`closeInherited`, run over `used`. -/
def closeAndRemoveUsedEntries (goosLinux : Bool) (stat : String → StatResult) :
    List (FileName × GoFile) → CloseEffects
  | [] => { closed := [], unlinkCalls := [], removed := [] }
  | (key, fl) :: rest =>
      let tail := closeAndRemoveUsedEntries goosLinux stat rest
      if key.isUnix then
        let u := unlinkUnixSocket goosLinux stat key.addr
        { closed := fl :: tail.closed,
          unlinkCalls := key.addr :: tail.unlinkCalls,
          removed := if u.removed then key.addr :: tail.removed else tail.removed }
      else
        { closed := fl :: tail.closed,
          unlinkCalls := tail.unlinkCalls,
          removed := tail.removed }

/-- `Fds.closeInherited`: run the loop over `inherited`, then replace it
with a fresh empty map. -/
def fdsCloseInherited (goosLinux : Bool) (stat : String → StatResult) (s : FdsState) :
    FdsState × CloseEffects :=
  ({ s with inherited := [] }, closeInheritedEntries goosLinux stat s.inherited)

/-- `Fds.closeUsed`: run the loop over `used`, then replace it with a
fresh empty map. -/
def fdsCloseUsed (s : FdsState) : FdsState × CloseEffects :=
  ({ s with used := [] }, closeUsedEntries s.used)

/-- `Fds.closeAndRemoveUsed`: run the unlinking loop over `used`, then
replace it with a fresh empty map. -/
def fdsCloseAndRemoveUsed (goosLinux : Bool) (stat : String → StatResult) (s : FdsState) :
    FdsState × CloseEffects :=
  ({ s with used := [] }, closeAndRemoveUsedEntries goosLinux stat s.used)

/-! ### `Upgrader.Ready` -/

/-- The part of the upgrader state `Ready` touches. -/
structure ReadyState where
  readyDone : Bool
  readyClosed : Bool
  fds : FdsState
  hasParent : Bool
  parentWrClosed : Bool
  pidFile : Option String
deriving DecidableEq, Repr

/-- What one call to `Ready` did. -/
structure ReadyEffects where
  closedInherited : Bool
  closedReadyC : Bool
  wrotePidFile : Bool
  sentReadyByte : Bool
deriving DecidableEq, Repr

/-- `Upgrader.Ready`: `readyOnce.Do` runs `closeInherited` and closes
`readyC` on the first call only; every call then re-attempts the
pidfile write when one is configured (`pidOk` is the write oracle;
failure returns early), and every call with a parent then invokes
`parent.sendReady`, which writes the readiness byte and closes the
pipe write end; a second `sendReady` writes on a closed file and
errors. -/
def upgraderReady (goosLinux : Bool) (stat : String → StatResult) (pidOk : Bool)
    (s : ReadyState) : ReadyState × ReadyEffects × Option GoError :=
  let first := !s.readyDone
  let fds1 := if first then (fdsCloseInherited goosLinux stat s.fds).1 else s.fds
  let s1 : ReadyState :=
    { s with readyDone := true, readyClosed := s.readyClosed || first, fds := fds1 }
  let eff0 : ReadyEffects :=
    { closedInherited := first, closedReadyC := first,
      wrotePidFile := s.pidFile.isSome, sentReadyByte := false }
  if s.pidFile.isSome ∧ ¬pidOk then
    (s1, eff0, some .pidWriteFailed)
  else if ¬s.hasParent then
    (s1, eff0, none)
  else
    ({ s1 with parentWrClosed := true },
     { eff0 with sentReadyByte := true },
     if s.parentWrClosed then some .fileAlreadyClosed else none)

/-! ### The fd-4 drain and `WaitForParent` -/

/-- The value the drain goroutine in `newParent` sends on
`parent.result`: `io.Copy` read `n` bytes before stopping with
`copyErr` (`none` is clean EOF).  Any byte before EOF becomes the
"unexpected data from parent process" error; a copy error on an empty
stream is wrapped; clean EOF with nothing read is nil. -/
def drainResult (n : Nat) (copyErr : Option GoError) : Option GoError :=
  if n ≠ 0 then some .unexpectedData
  else
    match copyErr with
    | some _ => some .copyFailed
    | none => none

/-- The two one-slot buffers `WaitForParent` selects on:
`parent.result` (filled once by the drain goroutine) and
`u.parentErr` (the latch). -/
structure WaitState where
  resultChan : Option (Option GoError)
  parentErr : Option (Option GoError)
deriving DecidableEq, Repr

/-- What one `WaitForParent` call returned. -/
inductive WFPResult where
  | cancelled
  | blocked
  | value (v : Option GoError)
deriving DecidableEq, Repr

/-- One call to `WaitForParent` (with a parent): a cancelled context
returns `ctx.Err()` and leaves the buffers alone; otherwise the call
receives from whichever buffer holds a value, then sends that value
back into `u.parentErr` before returning it; with both buffers empty it
blocks. -/
def waitForParentStep (s : WaitState) (ctxCancelled : Bool) : WFPResult × WaitState :=
  if ctxCancelled then (.cancelled, s)
  else
    match s.resultChan with
    | some v => (.value v, { resultChan := none, parentErr := some v })
    | none =>
        match s.parentErr with
        | some v => (.value v, { s with parentErr := some v })
        | none => (.blocked, s)

/-- A sequence of `WaitForParent` calls, each with its own context
cancellation flag. -/
def waitForParentRun (s : WaitState) : List Bool → List WFPResult × WaitState
  | [] => ([], s)
  | c :: rest =>
      let (r, s1) := waitForParentStep s c
      let (rs, s2) := waitForParentRun s1 rest
      (r :: rs, s2)

/-! ### The `run` event loop -/

/-- Result of one `doUpgrade` call: `err == nil` means the child
signalled ready and the loop must exit. -/
inductive DoUpgradeOutcome where
  | success
  | failure
deriving DecidableEq, Repr

/-- One select outcome of the `run` loop: the `parentExited` channel
fired, the `readyC` channel fired, the `stopC` channel fired (so `Stop`
was called), or an upgrade request arrived (carrying the outcome
`doUpgrade` would produce if it is reached). -/
inductive RunEvent where
  | parentExited
  | processReady
  | stop
  | upgradeRequest (res : DoUpgradeOutcome)
deriving DecidableEq, Repr

/-- Why the `run` loop returned (the deferred `close(u.exitC)` runs
exactly on return). -/
inductive ExitCause where
  | stopped
  | upgraded
deriving DecidableEq, Repr

/-- The `run` event loop.  `pa` is "the parentExited channel is still
armed" (parent not yet exited), `ra` is "readyC is still armed" (Ready
not yet observed).  Returns the cause of loop exit (`none` when the
trace ends with the loop still running) and the number of successful
`doUpgrade` calls. -/
def runLoop : Bool → Bool → List RunEvent → Option ExitCause × Nat
  | _, _, [] => (none, 0)
  | _, ra, .parentExited :: rest => runLoop false ra rest
  | pa, _, .processReady :: rest => runLoop pa false rest
  | _, _, .stop :: _ => (some .stopped, 0)
  | pa, ra, .upgradeRequest res :: rest =>
      if ra then runLoop pa ra rest
      else if pa then runLoop pa ra rest
      else
        match res with
        | .success => (some .upgraded, 1)
        | .failure => runLoop pa ra rest

/-! ### `Upgrader.Upgrade` entry -/

/-- Result of one `Upgrade` call. `accepted` means the request reached
`doUpgrade`, i.e. `startChild` was invoked. -/
inductive UpgradeOutcome where
  | err (e : GoError)
  | accepted
deriving DecidableEq, Repr

/-- The observable upgrader state at an `Upgrade` call.  `ready` means
the event loop has consumed `readyC`; `parentExited` means either there
is no parent or its exit was observed; `inDoUpgrade` means the event
loop is currently inside `doUpgrade`. -/
structure UpgState where
  supported : Bool
  stopClosed : Bool
  exitClosed : Bool
  ready : Bool
  parentExited : Bool
  inDoUpgrade : Bool
deriving DecidableEq, Repr, Fintype

/-- The three cases of the select in `Upgrade`: receive from `stopC`,
receive from `exitC`, or send the request to `upgradeC`. -/
inductive SelectBranch where
  | stop
  | exit
  | send
deriving DecidableEq, Repr, Fintype

/-- Which select cases can proceed: a closed channel is always
receivable; the unbuffered send to `upgradeC` is ready exactly while
the event loop is still running (it has not closed `exitC` yet) since
both its selects contain a receive from `upgradeC`. -/
def branchReady (s : UpgState) : SelectBranch → Bool
  | .stop => s.stopClosed
  | .exit => s.exitClosed
  | .send => !s.exitClosed

/-- One `Upgrade` call, given which ready select branch was chosen:
the `isSupportedOS` guard runs first; the `stopC` branch returns
"terminating", the `exitC` branch "already upgraded"; a request that
reaches the loop inside `doUpgrade` gets "upgrade in progress", and one
that reaches the main loop is rejected while not ready, then while the
parent is alive, and otherwise reaches `doUpgrade`. -/
def upgradeCall (s : UpgState) (c : SelectBranch) : UpgradeOutcome :=
  if ¬s.supported then .err .notSupported
  else
    match c with
    | .stop => .err .terminating
    | .exit => .err .alreadyUpgraded
    | .send =>
        if s.inDoUpgrade then .err .upgradeInProgress
        else if ¬s.ready then .err .notReady
        else if ¬s.parentExited then .err .parentNotExited
        else .accepted

/-- The rejection priority order as the specification states it:
not supported, then Stop already called, then already upgraded, then
not yet Ready, then parent still alive, then another upgrade running. -/
def upgradeDecisionSpec (s : UpgState) : UpgradeOutcome :=
  if ¬s.supported then .err .notSupported
  else if s.stopClosed then .err .terminating
  else if s.exitClosed then .err .alreadyUpgraded
  else if ¬s.ready then .err .notReady
  else if ¬s.parentExited then .err .parentNotExited
  else if s.inDoUpgrade then .err .upgradeInProgress
  else .accepted

/-- Reachability constraint of the coordinator: the loop is inside
`doUpgrade` only while it is still running (so `exitC` is open), and
`doUpgrade` is reached only after the loop consumed `readyC` and saw
the parent exit.  Nothing more is assumed: in particular, after `Stop`
closes `stopC` the loop may still be running and receiving on
`upgradeC` until its own select observes the stop. -/
def UpgStateWF (s : UpgState) : Prop :=
  s.inDoUpgrade = true →
    s.exitClosed = false ∧ s.ready = true ∧ s.parentExited = true

instance (s : UpgState) : Decidable (UpgStateWF s) := by
  unfold UpgStateWF; infer_instance

/-- A state in which `Stop` has completed and the loop has exited: both
`stopC` and `exitC` are closed. -/
def stoppedQuiescentState : UpgState :=
  { supported := true, stopClosed := true, exitClosed := true,
    ready := true, parentExited := true, inDoUpgrade := false }

/-- A fresh child process with a parent and no configured pidfile,
before its first `Ready` call. -/
def freshChildReadyState : ReadyState :=
  { readyDone := false, readyClosed := false, fds := ⟨[], []⟩,
    hasParent := true, parentWrClosed := false, pidFile := none }

/-- An all-sockets filesystem oracle for concrete evaluations. -/
def allSocketsStat : String → StatResult := fun _ => .okSocket

/-! ## Theorems -/

set_option maxRecDepth 40000 in
/-- C7 counterexample: `startChild` strips only entries equal to the
exact string `TABLEFLIP_HAS_PARENT_7DIU3=yes`.  A pre-existing entry
for the sentinel variable with a different value, here
`TABLEFLIP_HAS_PARENT_7DIU3=no`, survives into the child environment,
so it is false that any pre-existing instance of the variable is
stripped. -/
theorem c7_env_counterexample :
    childEnviron ["TABLEFLIP_HAS_PARENT_7DIU3=no"] =
      ["TABLEFLIP_HAS_PARENT_7DIU3=no", "TABLEFLIP_HAS_PARENT_7DIU3=yes"] ∧
    isSentinelVarEntry "TABLEFLIP_HAS_PARENT_7DIU3=no" = true ∧
    "TABLEFLIP_HAS_PARENT_7DIU3=no" ≠ sentinelAssignment := by
  refine ⟨by decide, by decide, by decide⟩

/-- C7 (amended): the child environment always ends with the sentinel
assignment `TABLEFLIP_HAS_PARENT_7DIU3=yes`, contains exactly one copy
of that exact string, and keeps every other entry (including entries
for the sentinel variable with a different value) with unchanged
multiplicity. -/
theorem c7_env_amended (environ : List String) :
    (childEnviron environ).getLast? = some sentinelAssignment ∧
    (childEnviron environ).count sentinelAssignment = 1 ∧
    ∀ v, v ≠ sentinelAssignment → (childEnviron environ).count v = environ.count v := by
  refine ⟨?_, ?_, ?_⟩
  · unfold childEnviron
    rw [List.getLast?_append]
    rfl
  · have h0 : sentinelAssignment ∉
        environ.filter (fun val => val ≠ sentinelAssignment) := by
      intro hmem
      have h1 := List.of_mem_filter hmem
      simp at h1
    unfold childEnviron
    rw [List.count_append, List.count_eq_zero.mpr h0]
    simp [List.count_singleton]
  · intro v hv
    unfold childEnviron
    rw [List.count_append, List.count_filter (by simpa using hv)]
    have h1 : List.count v [sentinelAssignment] = 0 := by
      simp only [List.count_singleton, beq_iff_eq]
      simp only [ite_eq_right_iff]
      exact fun h => (hv h.symm).elim
    rw [h1, Nat.add_zero]

/-- C7 amended, witnessed at a concrete environment. -/
theorem c7_env_amended_witness :
    (childEnviron ["A=1"]).count "A=1" = (["A=1"] : List String).count "A=1" :=
  (c7_env_amended ["A=1"]).2.2 "A=1" (by decide)

/-- C9: the argument `writeNames` hands to the gob encoder is never the
nil slice, and with no passed files it is the allocated empty slice, so
gob's reject-nil branch is unreachable. -/
theorem c9_writeNames_not_nil (passedFiles : List (FileName × GoFile)) :
    writeNamesEncodeArg (startChildFdNames passedFiles) ≠ GoSlice.nil ∧
    writeNamesEncodeArg (startChildFdNames []) = GoSlice.mk [] := by
  constructor
  · cases h : startChildFdNames passedFiles <;> simp [writeNamesEncodeArg]
  · rfl

/-- C9, witnessed: for the empty passed-files map the encoder argument
is not the nil slice. -/
theorem c9_writeNames_not_nil_witness :
    writeNamesEncodeArg (startChildFdNames ([] : List (FileName × GoFile))) ≠ GoSlice.nil :=
  (c9_writeNames_not_nil []).1

theorem closeAndRemoveUsedEntries_eq (g : Bool) (st : String → StatResult)
    (l : List (FileName × GoFile)) :
    closeAndRemoveUsedEntries g st l = closeInheritedEntries g st l := by
  induction l with
  | nil => rfl
  | cons p rest ih =>
      obtain ⟨key, fl⟩ := p
      by_cases h : key.isUnix = true <;>
        simp [closeAndRemoveUsedEntries, closeInheritedEntries, h, ih]

theorem closeInheritedEntries_closed (g : Bool) (st : String → StatResult)
    (l : List (FileName × GoFile)) :
    (closeInheritedEntries g st l).closed = l.map Prod.snd := by
  induction l with
  | nil => rfl
  | cons p rest ih =>
      obtain ⟨key, fl⟩ := p
      by_cases h : key.isUnix = true <;> simp [closeInheritedEntries, h, ih]

theorem closeInheritedEntries_unlinkCalls (g : Bool) (st : String → StatResult)
    (l : List (FileName × GoFile)) :
    (closeInheritedEntries g st l).unlinkCalls =
      (l.filter (fun p => p.1.isUnix)).map (fun p => p.1.addr) := by
  induction l with
  | nil => rfl
  | cons p rest ih =>
      obtain ⟨key, fl⟩ := p
      by_cases h : key.isUnix = true <;> simp [closeInheritedEntries, h, ih]

theorem closeInheritedEntries_removed (g : Bool) (st : String → StatResult)
    (l : List (FileName × GoFile)) :
    (closeInheritedEntries g st l).removed =
      (l.filter
          (fun p => p.1.isUnix && (unlinkUnixSocket g st p.1.addr).removed)).map
        (fun p => p.1.addr) := by
  induction l with
  | nil => rfl
  | cons p rest ih =>
      obtain ⟨key, fl⟩ := p
      by_cases h : key.isUnix = true
      · by_cases hr : (unlinkUnixSocket g st key.addr).removed = true <;>
          simp [closeInheritedEntries, h, hr, ih]
      · simp [closeInheritedEntries, h, ih]

theorem closeUsedEntries_spec (l : List (FileName × GoFile)) :
    (closeUsedEntries l).closed = l.map Prod.snd ∧
    (closeUsedEntries l).unlinkCalls = [] ∧ (closeUsedEntries l).removed = [] := by
  induction l with
  | nil => exact ⟨rfl, rfl, rfl⟩
  | cons p rest ih =>
      obtain ⟨key, fl⟩ := p
      refine ⟨?_, ?_, ?_⟩ <;> simp [closeUsedEntries, ih.1, ih.2.1, ih.2.2]

theorem unlinkUnixSocket_removed_imp (g : Bool) (st : String → StatResult) (a : String) :
    (unlinkUnixSocket g st a).removed = true →
      st a = .okSocket ∧ ¬(g = true ∧ strHasPrefix a "@" = true) := by
  cases g <;> cases hp : strHasPrefix a "@" <;> cases hsa : st a <;>
    simp [unlinkUnixSocket, hp, hsa]

theorem unlinkUnixSocket_removed_socket (g : Bool) (st : String → StatResult) (a : String)
    (h : st a = .okSocket) :
    (unlinkUnixSocket g st a).removed = !(g && strHasPrefix a "@") := by
  cases g <;> cases hp : strHasPrefix a "@" <;> simp [unlinkUnixSocket, hp, h]

/-- C10: `unlinkUnixSocket` removes a path only when `os.Stat` succeeds
and reports socket mode; a non-socket object is left in place with a
nil error; on Linux an abstract-namespace path (leading `@`) is not
even stat'ed; and consequently every path removed by the teardown loops
(`closeInherited`, `closeAndRemoveUsed`) had socket mode, while
`closeUsed` removes nothing. -/
theorem c10_unlink_safety (goosLinux : Bool) (stat : String → StatResult) (path : String)
    (s : FdsState) :
    ((unlinkUnixSocket goosLinux stat path).removed = true →
        stat path = .okSocket ∧ ¬(goosLinux = true ∧ strHasPrefix path "@" = true)) ∧
    (stat path = .okNonSocket →
        (unlinkUnixSocket goosLinux stat path).err = none ∧
        (unlinkUnixSocket goosLinux stat path).removed = false) ∧
    (goosLinux = true → strHasPrefix path "@" = true →
        unlinkUnixSocket goosLinux stat path =
          { err := none, removed := false, statted := false }) ∧
    (∀ p ∈ (fdsCloseInherited goosLinux stat s).2.removed, stat p = .okSocket) ∧
    (∀ p ∈ (fdsCloseAndRemoveUsed goosLinux stat s).2.removed, stat p = .okSocket) ∧
    ((fdsCloseUsed s).2.removed = []) := by
  refine ⟨unlinkUnixSocket_removed_imp goosLinux stat path, ?_, ?_, ?_, ?_, ?_⟩
  · intro h
    cases goosLinux <;> cases hp : strHasPrefix path "@" <;>
      simp [unlinkUnixSocket, hp, h]
  · intro hg hp
    simp [unlinkUnixSocket, hg, hp]
  · intro p hp
    rw [fdsCloseInherited, closeInheritedEntries_removed] at hp
    obtain ⟨q, hq, rfl⟩ := List.mem_map.mp hp
    have hq2 := List.of_mem_filter hq
    have hr : (unlinkUnixSocket goosLinux stat q.1.addr).removed = true := by
      rcases Bool.and_eq_true_iff.mp hq2 with ⟨_, h2⟩
      exact h2
    exact (unlinkUnixSocket_removed_imp goosLinux stat q.1.addr hr).1
  · intro p hp
    rw [fdsCloseAndRemoveUsed, closeAndRemoveUsedEntries_eq,
      closeInheritedEntries_removed] at hp
    obtain ⟨q, hq, rfl⟩ := List.mem_map.mp hp
    have hq2 := List.of_mem_filter hq
    have hr : (unlinkUnixSocket goosLinux stat q.1.addr).removed = true := by
      rcases Bool.and_eq_true_iff.mp hq2 with ⟨_, h2⟩
      exact h2
    exact (unlinkUnixSocket_removed_imp goosLinux stat q.1.addr hr).1
  · exact (closeUsedEntries_spec s.used).2.2

/-- C10, witnessed: an abstract-namespace Unix path on Linux is
returned untouched, without a stat. -/
theorem c10_unlink_safety_witness :
    unlinkUnixSocket true allSocketsStat "@sock" =
      { err := none, removed := false, statted := false } :=
  (c10_unlink_safety true allSocketsStat "@sock" ⟨[], []⟩).2.2.1 rfl (by decide)

/-- C5: with the registered socket paths actually present as sockets,
`closeInherited` closes every remaining inherited entry and hands
exactly the Unix-socket-class paths (listener/unix,
listener/unixpacket, packet/unixgram) to `unlinkUnixSocket`, removing
them unless the path starts with `@` on Linux; `closeUsed` closes every
used entry and unlinks nothing; `closeAndRemoveUsed` closes every used
entry and removes the same Unix-socket-class paths. -/
theorem c5_teardown (goosLinux : Bool) (stat : String → StatResult) (s : FdsState)
    (hsock : ∀ p, stat p = .okSocket) :
    ((fdsCloseInherited goosLinux stat s).2.closed = s.inherited.map Prod.snd) ∧
    ((fdsCloseInherited goosLinux stat s).2.unlinkCalls =
        (s.inherited.filter (fun p => p.1.isUnix)).map (fun p => p.1.addr)) ∧
    ((fdsCloseInherited goosLinux stat s).2.removed =
        (s.inherited.filter
            (fun p => p.1.isUnix && !(goosLinux && strHasPrefix p.1.addr "@"))).map
          (fun p => p.1.addr)) ∧
    ((fdsCloseInherited goosLinux stat s).1.inherited = []) ∧
    ((fdsCloseUsed s).2.closed = s.used.map Prod.snd) ∧
    ((fdsCloseUsed s).2.unlinkCalls = [] ∧ (fdsCloseUsed s).2.removed = []) ∧
    ((fdsCloseAndRemoveUsed goosLinux stat s).2.closed = s.used.map Prod.snd) ∧
    ((fdsCloseAndRemoveUsed goosLinux stat s).2.removed =
        (s.used.filter
            (fun p => p.1.isUnix && !(goosLinux && strHasPrefix p.1.addr "@"))).map
          (fun p => p.1.addr)) := by
  have hfil : ∀ l : List (FileName × GoFile),
      l.filter (fun p => p.1.isUnix && (unlinkUnixSocket goosLinux stat p.1.addr).removed) =
      l.filter (fun p => p.1.isUnix && !(goosLinux && strHasPrefix p.1.addr "@")) := by
    intro l
    apply List.filter_congr
    intro x _
    rw [unlinkUnixSocket_removed_socket goosLinux stat x.1.addr (hsock x.1.addr)]
  refine ⟨?_, ?_, ?_, rfl, ?_, ⟨?_, ?_⟩, ?_, ?_⟩
  · exact closeInheritedEntries_closed goosLinux stat s.inherited
  · exact closeInheritedEntries_unlinkCalls goosLinux stat s.inherited
  · rw [fdsCloseInherited, closeInheritedEntries_removed, hfil]
  · exact (closeUsedEntries_spec s.used).1
  · exact (closeUsedEntries_spec s.used).2.1
  · exact (closeUsedEntries_spec s.used).2.2
  · rw [fdsCloseAndRemoveUsed, closeAndRemoveUsedEntries_eq]
    exact closeInheritedEntries_closed goosLinux stat s.used
  · rw [fdsCloseAndRemoveUsed, closeAndRemoveUsedEntries_eq,
      closeInheritedEntries_removed, hfil]

/-- C5, witnessed on a concrete registry holding one Unix listener, one
abstract-namespace Unix listener and one TCP listener. -/
theorem c5_teardown_witness :
    (fdsCloseInherited true allSocketsStat
        ⟨[(⟨"listener", "unix", "/tmp/s"⟩, 7), (⟨"listener", "unix", "@abs"⟩, 8),
          (⟨"listener", "tcp", ":80"⟩, 9)], []⟩).2.removed = ["/tmp/s"] := by
  rw [(c5_teardown true allSocketsStat _ (fun _ => rfl)).2.2.1]
  decide

/-- C6 counterexample: from a fresh child state with a parent and no
pidfile, the second call to `Ready` re-invokes `parent.sendReady` (and
gets a write-on-closed-file error), while attempting no pidfile write —
so it is false that subsequent calls only re-attempt the pidfile write
and perform no other action. -/
theorem c6_ready_counterexample :
    (upgraderReady true allSocketsStat true
        (upgraderReady true allSocketsStat true freshChildReadyState).1).2.1.sentReadyByte
      = true ∧
    (upgraderReady true allSocketsStat true
        (upgraderReady true allSocketsStat true freshChildReadyState).1).2.1.wrotePidFile
      = false ∧
    (upgraderReady true allSocketsStat true
        (upgraderReady true allSocketsStat true freshChildReadyState).1).2.2
      = some .fileAlreadyClosed := by
  refine ⟨by decide, by decide, by decide⟩

/-- C6 (amended): the first call to `Ready` closes all still-inherited
fds and closes the ready channel; no later call does either; every call
(first or later) attempts the pidfile write exactly when one is
configured, and every call whose pidfile step did not fail invokes
`parent.sendReady` when a parent exists — so a subsequent call with a
parent re-attempts the readiness write, which fails on the pipe write
end the first call closed. -/
theorem c6_ready_amended (goosLinux : Bool) (stat : String → StatResult) (pidOk : Bool)
    (s : ReadyState) :
    ((upgraderReady goosLinux stat pidOk s).2.1.closedInherited = !s.readyDone) ∧
    ((upgraderReady goosLinux stat pidOk s).2.1.closedReadyC = !s.readyDone) ∧
    (s.readyDone = false →
        (upgraderReady goosLinux stat pidOk s).1.fds.inherited = [] ∧
        (upgraderReady goosLinux stat pidOk s).1.readyClosed = true) ∧
    (s.readyDone = true → (upgraderReady goosLinux stat pidOk s).1.fds = s.fds) ∧
    ((upgraderReady goosLinux stat pidOk s).2.1.wrotePidFile = s.pidFile.isSome) ∧
    ((upgraderReady goosLinux stat pidOk s).2.1.sentReadyByte =
        (s.hasParent && (!s.pidFile.isSome || pidOk))) ∧
    (s.parentWrClosed = true →
        (upgraderReady goosLinux stat pidOk s).2.1.sentReadyByte = true →
        (upgraderReady goosLinux stat pidOk s).2.2 = some .fileAlreadyClosed) := by
  obtain ⟨rd, rc, fds, hp, wc, pf⟩ := s
  cases rd <;> cases hp <;> cases wc <;> cases pidOk <;> cases pf <;>
    simp [upgraderReady, fdsCloseInherited]

/-- C6 amended, witnessed at the fresh child state. -/
theorem c6_ready_amended_witness :
    (upgraderReady true allSocketsStat true freshChildReadyState).1.fds.inherited = [] :=
  ((c6_ready_amended true allSocketsStat true freshChildReadyState).2.2.1 rfl).1

theorem waitForParentRun_latch (v : Option GoError) (calls : List Bool) :
    ∀ (s : WaitState),
      (s = ⟨some v, none⟩ ∨ s = ⟨none, some v⟩) →
      ∀ r ∈ (waitForParentRun s calls).1, r = .cancelled ∨ r = .value v := by
  induction calls with
  | nil =>
      intro s _ r hr
      simp [waitForParentRun] at hr
  | cons c rest ih =>
      intro s hs r hr
      rcases hs with rfl | rfl <;> cases c <;>
        simp [waitForParentRun, waitForParentStep] at hr <;>
        rcases hr with rfl | hr
      · exact Or.inr rfl
      · exact ih ⟨none, some v⟩ (Or.inr rfl) r hr
      · exact Or.inl rfl
      · exact ih ⟨some v, none⟩ (Or.inl rfl) r hr
      · exact Or.inr rfl
      · exact ih ⟨none, some v⟩ (Or.inr rfl) r hr
      · exact Or.inl rfl
      · exact ih ⟨none, some v⟩ (Or.inr rfl) r hr

/-- C8: the fd-4 drain yields nil exactly when EOF arrives with zero
bytes read; any byte before EOF makes the delivered result the
"unexpected data from parent process" error; and `WaitForParent`
latches the first result, so every later (non-cancelled) call observes
the same value. -/
theorem c8_drain_latch (n : Nat) (copyErr : Option GoError) (calls : List Bool) :
    (drainResult n copyErr = none ↔ n = 0 ∧ copyErr = none) ∧
    (n ≠ 0 → drainResult n copyErr = some .unexpectedData) ∧
    (∀ r ∈ (waitForParentRun ⟨some (drainResult n copyErr), none⟩ calls).1,
        r = .cancelled ∨ r = .value (drainResult n copyErr)) := by
  refine ⟨?_, ?_, ?_⟩
  · by_cases hn : n = 0 <;> cases copyErr <;> simp [drainResult, hn]
  · intro hn
    simp [drainResult, hn]
  · exact waitForParentRun_latch _ calls _ (Or.inl rfl)

/-- C8, witnessed: one byte before EOF yields the unexpected-data
error, and a two-call sequence observes that same latched value
twice. -/
theorem c8_drain_latch_witness :
    drainResult 1 none = some .unexpectedData ∧
    ((waitForParentRun ⟨some (drainResult 1 none), none⟩ [false, false]).1 =
      [.value (some .unexpectedData), .value (some .unexpectedData)]) :=
  ⟨(c8_drain_latch 1 none []).2.1 (by decide), by decide⟩

theorem runLoop_shape (pa ra : Bool) (evs : List RunEvent) :
    runLoop pa ra evs = (none, 0) ∨ runLoop pa ra evs = (some .stopped, 0) ∨
      runLoop pa ra evs = (some .upgraded, 1) := by
  induction evs generalizing pa ra with
  | nil => exact Or.inl rfl
  | cons e rest ih =>
      cases e with
      | parentExited => simpa [runLoop] using ih false ra
      | processReady => simpa [runLoop] using ih pa false
      | stop => exact Or.inr (Or.inl rfl)
      | upgradeRequest res =>
          cases ra
          · cases pa
            · cases res
              · exact Or.inr (Or.inr rfl)
              · simpa [runLoop] using ih false false
            · simpa [runLoop] using ih true false
          · simpa [runLoop] using ih pa true

theorem runLoop_stopped_mem (pa ra : Bool) (evs : List RunEvent) :
    (runLoop pa ra evs).1 = some .stopped → RunEvent.stop ∈ evs := by
  induction evs generalizing pa ra with
  | nil => intro h; simp [runLoop] at h
  | cons e rest ih =>
      cases e with
      | parentExited =>
          intro h
          exact List.mem_cons_of_mem _ (ih false ra h)
      | processReady =>
          intro h
          exact List.mem_cons_of_mem _ (ih pa false h)
      | stop => intro _; exact List.mem_cons_self _ _
      | upgradeRequest res =>
          intro h
          cases ra
          · cases pa
            · cases res
              · simp [runLoop] at h
              · exact List.mem_cons_of_mem _ (ih false false h)
            · exact List.mem_cons_of_mem _ (ih true false h)
          · exact List.mem_cons_of_mem _ (ih pa true h)

theorem runLoop_mem_stop_isSome (pa ra : Bool) (evs : List RunEvent) :
    RunEvent.stop ∈ evs → (runLoop pa ra evs).1.isSome := by
  induction evs generalizing pa ra with
  | nil => intro h; simp at h
  | cons e rest ih =>
      intro h
      cases e with
      | parentExited =>
          rcases List.mem_cons.mp h with h1 | h2
          · exact absurd h1 (by simp)
          · exact ih false ra h2
      | processReady =>
          rcases List.mem_cons.mp h with h1 | h2
          · exact absurd h1 (by simp)
          · exact ih pa false h2
      | stop => simp [runLoop]
      | upgradeRequest res =>
          rcases List.mem_cons.mp h with h1 | h2
          · exact absurd h1 (by simp)
          · cases ra
            · cases pa
              · cases res
                · simp [runLoop]
                · exact ih false false h2
              · exact ih true false h2
            · exact ih pa true h2

/-- C2: the `run` loop returns (equivalently, the deferred
`close(u.exitC)` fires, making `Exit()` observable) exactly when the
stop branch fired — which happens only when `Stop` closed `stopC` — or
exactly one `doUpgrade` call succeeded; a successful upgrade ends the
loop immediately, so the success count never exceeds one, and no other
event closes the channel. -/
theorem c2_exit_channel (pa ra : Bool) (evs : List RunEvent) :
    ((runLoop pa ra evs).1.isSome ↔
        (runLoop pa ra evs).1 = some .stopped ∨ (runLoop pa ra evs).2 = 1) ∧
    ((runLoop pa ra evs).1 = some .upgraded ↔ (runLoop pa ra evs).2 = 1) ∧
    ((runLoop pa ra evs).1 = some .stopped → RunEvent.stop ∈ evs) ∧
    (RunEvent.stop ∈ evs → (runLoop pa ra evs).1.isSome) ∧
    ((runLoop pa ra evs).2 ≤ 1) := by
  refine ⟨?_, ?_, runLoop_stopped_mem pa ra evs, runLoop_mem_stop_isSome pa ra evs, ?_⟩
  all_goals rcases runLoop_shape pa ra evs with h | h | h <;> rw [h] <;> simp

/-- C2, witnessed: a trace ending in a stop branch closes the exit
channel. -/
theorem c2_exit_channel_witness :
    (runLoop true true [RunEvent.stop]).1.isSome :=
  (c2_exit_channel true true [RunEvent.stop]).2.2.2.1 (by decide)

/-- C3 counterexample: in the quiescent state after `Stop` has
completed (both `stopC` and `exitC` closed), the select in `Upgrade`
may take the `exitC` branch and return "already upgraded", although the
claimed priority order puts "Stop already called" (terminating) first.
Go selects uniformly among ready cases, so this order is not enforced
by the code. -/
theorem c3_priority_counterexample :
    UpgStateWF stoppedQuiescentState ∧
    branchReady stoppedQuiescentState .exit = true ∧
    upgradeCall stoppedQuiescentState .exit = .err .alreadyUpgraded ∧
    upgradeDecisionSpec stoppedQuiescentState = .err .terminating := by
  decide

set_option synthInstance.maxSize 4000 in
set_option maxHeartbeats 1000000 in
/-- C3 (amended): when `Ready` has never been called (and the process
is supported, not stopped, not yet upgraded), every `Upgrade` call
returns the process-is-not-ready error and never reaches `startChild`.
As long as `Stop` has not been called, the rejection conditions are
checked exactly in the claimed priority order.  Once `Stop` has been
called, the select is nondeterministic among the ready branches: the
`stopC` branch returns "terminating", the `exitC` branch (available
once the loop has exited) returns "already upgraded", and a send that
wins the race against the loop's own observation of `stopC` (possible
while the loop is still running) is handled exactly as if `Stop` had
not been called — "upgrade in progress", not-ready, parent-not-exited,
or even acceptance, in which case `startChild` is invoked. -/
theorem c3_upgrade_amended : ∀ (s : UpgState) (c : SelectBranch),
    UpgStateWF s → branchReady s c = true →
    ((s.supported = true → s.stopClosed = false → s.exitClosed = false → s.ready = false →
        upgradeCall s c = .err .notReady ∧ upgradeCall s c ≠ .accepted) ∧
     (s.stopClosed = false → upgradeCall s c = upgradeDecisionSpec s) ∧
     (s.supported = true → c = .stop → upgradeCall s c = .err .terminating) ∧
     (s.supported = true → c = .exit → upgradeCall s c = .err .alreadyUpgraded) ∧
     (c = .send →
        upgradeCall s c = upgradeDecisionSpec { s with stopClosed := false })) := by
  decide

/-- C3 amended, witnessed: in the supported, not-stopped, not-upgraded,
not-ready state, the Upgrade call is rejected with the not-ready error
and spawns nothing. -/
theorem c3_upgrade_amended_witness :
    upgradeCall
        { supported := true, stopClosed := false, exitClosed := false,
          ready := false, parentExited := false, inDoUpgrade := false } .send
      = .err .notReady :=
  ((c3_upgrade_amended
      { supported := true, stopClosed := false, exitClosed := false,
        ready := false, parentExited := false, inDoUpgrade := false } .send
      (by decide) (by decide)).1 rfl rfl rfl rfl).1

theorem mem_mapKeys_mapDelete {α : Type} (m : List (FileName × α)) (k j : FileName) :
    j ∈ mapKeys (mapDelete m k) ↔ j ∈ mapKeys m ∧ j ≠ k := by
  unfold mapKeys mapDelete
  constructor
  · intro h
    obtain ⟨p, hp, rfl⟩ := List.mem_map.mp h
    have h2 := List.of_mem_filter hp
    have h3 := List.mem_of_mem_filter hp
    exact ⟨List.mem_map_of_mem _ h3, by simpa using h2⟩
  · rintro ⟨h1, h2⟩
    obtain ⟨p, hp, rfl⟩ := List.mem_map.mp h1
    exact List.mem_map_of_mem _ (List.mem_filter.mpr ⟨hp, by simpa using h2⟩)

theorem mem_mapKeys_mapSet {α : Type} (m : List (FileName × α)) (k : FileName) (v : α)
    (j : FileName) :
    j ∈ mapKeys (mapSet m k v) ↔ j = k ∨ (j ∈ mapKeys m ∧ j ≠ k) := by
  unfold mapSet
  rw [show mapKeys ((k, v) :: mapDelete m k) = k :: mapKeys (mapDelete m k) from rfl,
    List.mem_cons, mem_mapKeys_mapDelete]

theorem disjoint_moveToUsed (s : FdsState) (key : FileName) (fl : GoFile)
    (h : DisjointMaps s) : DisjointMaps (moveToUsed s key fl) := by
  intro j hj
  simp only [moveToUsed] at hj ⊢
  have hj2 := (mem_mapKeys_mapDelete s.inherited key j).mp hj
  rw [mem_mapKeys_mapSet]
  rintro (rfl | ⟨hu, _⟩)
  · exact hj2.2 rfl
  · exact h j hj2.1 hu

theorem disjoint_retrieveLocked (s : FdsState) (key : FileName) (convOk : Bool)
    (h : DisjointMaps s) : DisjointMaps (retrieveLocked s key convOk) := by
  unfold retrieveLocked
  cases mapLookup s.inherited key with
  | none => exact h
  | some fl =>
      by_cases hc : convOk = true
      · simpa [hc] using disjoint_moveToUsed s key fl h
      · simpa [hc] using h

theorem disjoint_listenOp (s : FdsState) (key : FileName) (convOk createOk : Bool)
    (newF : GoFile) (h : DisjointMaps s) : DisjointMaps (listenOp s key convOk createOk newF) := by
  unfold listenOp
  by_cases hs : retrieveStops s key = true
  · simpa [hs] using disjoint_retrieveLocked s key convOk h
  · by_cases hc : createOk = true
    · simpa [hs, hc] using disjoint_moveToUsed s key newF h
    · simpa [hs, hc] using h

theorem disjoint_addOp (s : FdsState) (key : FileName) (dupOk : Bool) (newF : GoFile)
    (h : DisjointMaps s) : DisjointMaps (addOp s key dupOk newF) := by
  unfold addOp
  by_cases hd : dupOk = true
  · simpa [hd] using disjoint_moveToUsed s key newF h
  · simpa [hd] using h

theorem disjoint_applyOp (s : FdsState) (op : FdsOp) (h : DisjointMaps s) :
    DisjointMaps (applyOp s op) := by
  cases op with
  | listen network addr convOk createOk newF => exact disjoint_listenOp s _ _ _ _ h
  | listenWithCallback network addr convOk createOk newF => exact disjoint_listenOp s _ _ _ _ h
  | listener network addr convOk => exact disjoint_retrieveLocked s _ _ h
  | listenPacket network addr convOk createOk newF => exact disjoint_listenOp s _ _ _ _ h
  | listenPacketWithCallback network addr convOk createOk newF =>
      exact disjoint_listenOp s _ _ _ _ h
  | packetConn network addr convOk => exact disjoint_retrieveLocked s _ _ h
  | conn network addr convOk => exact disjoint_retrieveLocked s _ _ h
  | file name dupOk => exact disjoint_retrieveLocked s _ _ h
  | addListener network addr dupOk newF => exact disjoint_addOp s _ _ _ h
  | addPacketConn network addr dupOk newF => exact disjoint_addOp s _ _ _ h
  | addConn network addr dupOk newF => exact disjoint_addOp s _ _ _ h
  | addFile name dupOk newF => exact disjoint_addOp s _ _ _ h
  | closeInherited => intro j hj; simp [applyOp, mapKeys] at hj
  | closeUsed => intro j _; simp [applyOp, mapKeys]
  | closeAndRemoveUsed => intro j _; simp [applyOp, mapKeys]

theorem disjoint_applyOps (s : FdsState) (ops : List FdsOp) (h : DisjointMaps s) :
    DisjointMaps (applyOps s ops) := by
  induction ops generalizing s with
  | nil => exact h
  | cons op rest ih => exact ih (applyOp s op) (disjoint_applyOp s op h)

theorem moveToUsed_fresh_key (s : FdsState) (key : FileName) (fl : GoFile) (k : FileName)
    (hnot : k ∉ mapKeys s.used) (hin : k ∈ mapKeys (moveToUsed s key fl).used) :
    k ∉ mapKeys (moveToUsed s key fl).inherited := by
  simp only [moveToUsed] at hin ⊢
  rcases (mem_mapKeys_mapSet s.used key fl k).mp hin with rfl | ⟨hu, _⟩
  · rw [mem_mapKeys_mapDelete]
    rintro ⟨_, hne⟩
    exact hne rfl
  · exact absurd hu hnot

theorem retrieveLocked_fresh_key (s : FdsState) (key : FileName) (convOk : Bool)
    (k : FileName) (hnot : k ∉ mapKeys s.used)
    (hin : k ∈ mapKeys (retrieveLocked s key convOk).used) :
    k ∉ mapKeys (retrieveLocked s key convOk).inherited := by
  unfold retrieveLocked at hin ⊢
  cases hm : mapLookup s.inherited key with
  | none =>
      simp only [hm] at hin
      exact absurd hin hnot
  | some fl =>
      simp only [hm] at hin ⊢
      by_cases hc : convOk = true
      · rw [if_pos hc] at hin ⊢
        exact moveToUsed_fresh_key s key fl k hnot hin
      · rw [if_neg hc] at hin
        exact absurd hin hnot

theorem listenOp_fresh_key (s : FdsState) (key : FileName) (convOk createOk : Bool)
    (newF : GoFile) (k : FileName) (hnot : k ∉ mapKeys s.used)
    (hin : k ∈ mapKeys (listenOp s key convOk createOk newF).used) :
    k ∉ mapKeys (listenOp s key convOk createOk newF).inherited := by
  unfold listenOp at hin ⊢
  by_cases hs : retrieveStops s key = true
  · rw [if_pos hs] at hin ⊢
    exact retrieveLocked_fresh_key s key convOk k hnot hin
  · rw [if_neg hs] at hin ⊢
    by_cases hc : createOk = true
    · rw [if_pos hc] at hin ⊢
      exact moveToUsed_fresh_key s key newF k hnot hin
    · rw [if_neg hc] at hin
      exact absurd hin hnot

theorem addOp_fresh_key (s : FdsState) (key : FileName) (dupOk : Bool) (newF : GoFile)
    (k : FileName) (hnot : k ∉ mapKeys s.used)
    (hin : k ∈ mapKeys (addOp s key dupOk newF).used) :
    k ∉ mapKeys (addOp s key dupOk newF).inherited := by
  unfold addOp at hin ⊢
  by_cases hd : dupOk = true
  · rw [if_pos hd] at hin ⊢
    exact moveToUsed_fresh_key s key newF k hnot hin
  · rw [if_neg hd] at hin
    exact absurd hin hnot

theorem applyOp_fresh_key (s : FdsState) (op : FdsOp) (k : FileName)
    (hnot : k ∉ mapKeys s.used) (hin : k ∈ mapKeys (applyOp s op).used) :
    k ∉ mapKeys (applyOp s op).inherited := by
  cases op with
  | listen network addr convOk createOk newF => exact listenOp_fresh_key s _ _ _ _ k hnot hin
  | listenWithCallback network addr convOk createOk newF =>
      exact listenOp_fresh_key s _ _ _ _ k hnot hin
  | listener network addr convOk => exact retrieveLocked_fresh_key s _ _ k hnot hin
  | listenPacket network addr convOk createOk newF =>
      exact listenOp_fresh_key s _ _ _ _ k hnot hin
  | listenPacketWithCallback network addr convOk createOk newF =>
      exact listenOp_fresh_key s _ _ _ _ k hnot hin
  | packetConn network addr convOk => exact retrieveLocked_fresh_key s _ _ k hnot hin
  | conn network addr convOk => exact retrieveLocked_fresh_key s _ _ k hnot hin
  | file name dupOk => exact retrieveLocked_fresh_key s _ _ k hnot hin
  | addListener network addr dupOk newF => exact addOp_fresh_key s _ _ _ k hnot hin
  | addPacketConn network addr dupOk newF => exact addOp_fresh_key s _ _ _ k hnot hin
  | addConn network addr dupOk newF => exact addOp_fresh_key s _ _ _ k hnot hin
  | addFile name dupOk newF => exact addOp_fresh_key s _ _ _ k hnot hin
  | closeInherited => simp [applyOp, mapKeys]
  | closeUsed => exact absurd hin (by simp [applyOp, mapKeys])
  | closeAndRemoveUsed => exact absurd hin (by simp [applyOp, mapKeys])

/-- C4: starting from a fresh registry (`newFds` leaves `used` empty),
after any prefix of any sequence of `Fds` operations, every name is
present in at most one of the two maps; moreover any single operation
that newly inserts a name into `used` leaves `inherited` without that
name. -/
theorem c4_name_in_one_map (inh0 : List (FileName × GoFile)) (ops : List FdsOp) (n : Nat) :
    DisjointMaps (applyOps (newFdsState inh0) (ops.take n)) ∧
    (∀ (s : FdsState) (op : FdsOp) (k : FileName),
        k ∉ mapKeys s.used → k ∈ mapKeys (applyOp s op).used →
        k ∉ mapKeys (applyOp s op).inherited) := by
  constructor
  · apply disjoint_applyOps
    intro j _ hj
    simp [newFdsState, mapKeys] at hj
  · exact applyOp_fresh_key

/-- C4, witnessed on a concrete operation sequence: after a retrieval
and an insert, the invariant holds, and a concrete fresh insert removed
its name from `inherited`. -/
theorem c4_name_in_one_map_witness :
    DisjointMaps (applyOps (newFdsState [(⟨"listener", "tcp", ":80"⟩, 3)])
        ([FdsOp.listener "tcp" ":80" true, FdsOp.addFile "pid" true 4].take 2)) ∧
    (⟨"fd", "pid", ""⟩ : FileName) ∉
      mapKeys (applyOp (newFdsState [(⟨"fd", "pid", ""⟩, 3)])
        (FdsOp.addFile "pid" true 4)).inherited :=
  ⟨(c4_name_in_one_map [(⟨"listener", "tcp", ":80"⟩, 3)]
      [FdsOp.listener "tcp" ":80" true, FdsOp.addFile "pid" true 4] 2).1,
   (c4_name_in_one_map [] [] 0).2 (newFdsState [(⟨"fd", "pid", ""⟩, 3)])
      (FdsOp.addFile "pid" true 4) ⟨"fd", "pid", ""⟩ (by decide) (by decide)⟩

theorem startChildFdNames_eq (passedFiles : List (FileName × GoFile)) :
    writeNamesEncodeArg (startChildFdNames passedFiles) =
      GoSlice.mk (passedFiles.map (fun p => nameSlice p.1)) := by
  have hgo : ∀ (ps : List (FileName × GoFile)) (acc : List (List String)),
      ps.foldl (fun a p => goAppend a (nameSlice p.1)) (GoSlice.mk acc) =
        GoSlice.mk (acc ++ ps.map (fun p => nameSlice p.1)) := by
    intro ps
    induction ps with
    | nil => intro acc; simp
    | cons p rest ih =>
        intro acc
        rw [List.foldl_cons]
        rw [show goAppend (GoSlice.mk acc) (nameSlice p.1) =
          GoSlice.mk (acc ++ [nameSlice p.1]) from rfl, ih]
        simp
  cases passedFiles with
  | nil => rfl
  | cons p rest =>
      rw [show startChildFdNames (p :: rest) =
        rest.foldl (fun a q => goAppend a (nameSlice q.1)) (GoSlice.mk [nameSlice p.1])
        from rfl, hgo]
      rfl

theorem encodedNames_eq (passedFiles : List (FileName × GoFile)) :
    encodedNames passedFiles = passedFiles.map (fun p => nameSlice p.1) := by
  unfold encodedNames
  rw [startChildFdNames_eq]

theorem fileNameOfSlice_nameSlice (nm : FileName) :
    fileNameOfSlice (nameSlice nm) = nm := rfl

theorem mapLookup_cons {α : Type} (k2 : FileName) (v2 : α) (rest : List (FileName × α))
    (j : FileName) :
    mapLookup ((k2, v2) :: rest) j = if j = k2 then some v2 else mapLookup rest j := rfl

theorem lookupLast_cons {α : Type} (k2 : FileName) (v2 : α) (rest : List (FileName × α))
    (j : FileName) :
    lookupLast ((k2, v2) :: rest) j =
      (match lookupLast rest j with
      | some v3 => some v3
      | none => if j = k2 then some v2 else none) := rfl

theorem mem_mapKeys_cons {α : Type} (k2 : FileName) (v2 : α) (rest : List (FileName × α))
    (j : FileName) :
    j ∈ mapKeys ((k2, v2) :: rest) ↔ j = k2 ∨ j ∈ mapKeys rest := by
  simp [mapKeys]

theorem mapLookup_mapDelete_ne {α : Type} (m : List (FileName × α)) (k j : FileName)
    (h : j ≠ k) : mapLookup (mapDelete m k) j = mapLookup m j := by
  induction m with
  | nil => rfl
  | cons p rest ih =>
      obtain ⟨k2, v⟩ := p
      by_cases h2 : k2 = k
      · have hdel : mapDelete ((k2, v) :: rest) k = mapDelete rest k := by
          simp [mapDelete, List.filter_cons, h2]
        rw [hdel, ih, mapLookup_cons, if_neg (fun he => h (he.trans h2))]
      · have hdel : mapDelete ((k2, v) :: rest) k = (k2, v) :: mapDelete rest k := by
          simp [mapDelete, List.filter_cons, h2]
        rw [hdel, mapLookup_cons, mapLookup_cons]
        by_cases h3 : j = k2
        · rw [if_pos h3, if_pos h3]
        · rw [if_neg h3, if_neg h3, ih]

theorem mapLookup_mapSet {α : Type} (m : List (FileName × α)) (k : FileName) (v : α)
    (j : FileName) :
    mapLookup (mapSet m k v) j = if j = k then some v else mapLookup m j := by
  unfold mapSet
  by_cases h : j = k
  · simp [mapLookup, h]
  · simp [mapLookup, h, mapLookup_mapDelete_ne m k j h]

theorem mapLookup_foldl_mapSet {α : Type} (entries : List (FileName × α)) :
    ∀ (m : List (FileName × α)) (j : FileName),
      mapLookup (entries.foldl (fun acc p => mapSet acc p.1 p.2) m) j =
        (match lookupLast entries j with
        | some v => some v
        | none => mapLookup m j) := by
  induction entries with
  | nil => intro m j; rfl
  | cons p rest ih =>
      intro m j
      obtain ⟨k2, v2⟩ := p
      rw [List.foldl_cons, ih, lookupLast_cons]
      cases hl : lookupLast rest j with
      | some v3 => rfl
      | none =>
          show mapLookup (mapSet m k2 v2) j =
            (match (if j = k2 then some v2 else none : Option α) with
            | some v => some v
            | none => mapLookup m j)
          rw [mapLookup_mapSet]
          by_cases hj : j = k2
          · rw [if_pos hj, if_pos hj]
          · rw [if_neg hj, if_neg hj]

theorem mapLookup_buildMap {α : Type} (entries : List (FileName × α)) (j : FileName) :
    mapLookup (buildMap entries) j = lookupLast entries j := by
  unfold buildMap
  rw [mapLookup_foldl_mapSet]
  cases lookupLast entries j <;> rfl

theorem lookupLast_isSome_iff {α : Type} (l : List (FileName × α)) (j : FileName) :
    (lookupLast l j).isSome ↔ j ∈ mapKeys l := by
  induction l with
  | nil => simp [lookupLast, mapKeys]
  | cons p rest ih =>
      obtain ⟨k2, v2⟩ := p
      rw [lookupLast_cons, mem_mapKeys_cons]
      cases hl : lookupLast rest j with
      | some v3 =>
          have h1 : j ∈ mapKeys rest := ih.mp (by rw [hl]; rfl)
          simp [h1]
      | none =>
          have h1 : j ∉ mapKeys rest := fun hmem => by
            have h2 := ih.mpr hmem
            rw [hl] at h2
            simp at h2
          by_cases hj : j = k2
          · simp [hj]
          · simp [hj, h1]

theorem lookupLast_mem {α : Type} (l : List (FileName × α)) (j : FileName) (v : α)
    (h : lookupLast l j = some v) : (j, v) ∈ l := by
  induction l with
  | nil => simp [lookupLast] at h
  | cons p rest ih =>
      obtain ⟨k2, v2⟩ := p
      cases hl : lookupLast rest j with
      | some v3 =>
          rw [show lookupLast ((k2, v2) :: rest) j =
            (match lookupLast rest j with
            | some v4 => some v4
            | none => if j = k2 then some v2 else none) from rfl, hl] at h
          obtain rfl : v3 = v := by simpa using h
          exact List.mem_cons_of_mem _ (ih hl)
      | none =>
          rw [show lookupLast ((k2, v2) :: rest) j =
            (match lookupLast rest j with
            | some v4 => some v4
            | none => if j = k2 then some v2 else none) from rfl, hl] at h
          by_cases hj : j = k2
          · rw [if_pos hj] at h
            obtain rfl : v2 = v := by simpa using h
            subst hj
            exact List.mem_cons_self _ _
          · rw [if_neg hj] at h
            simp at h

theorem lookupLast_eq_of_nodup {α : Type} (l : List (FileName × α))
    (hnd : (mapKeys l).Nodup) (j : FileName) (v : α) (h : (j, v) ∈ l) :
    lookupLast l j = some v := by
  induction l with
  | nil => simp at h
  | cons p rest ih =>
      obtain ⟨k2, v2⟩ := p
      have hnd2 := List.nodup_cons.mp (show (k2 :: mapKeys rest).Nodup from hnd)
      rcases List.mem_cons.mp h with heq | hmem
      · obtain ⟨rfl, rfl⟩ : j = k2 ∧ v = v2 := by
          simpa [Prod.ext_iff] using heq
        have hnone : lookupLast rest j = none := by
          cases hl : lookupLast rest j with
          | none => rfl
          | some v3 =>
              have hm := lookupLast_mem rest j v3 hl
              have hjk : j ∈ mapKeys rest :=
                show j ∈ mapKeys rest from List.mem_map_of_mem Prod.fst hm
              exact absurd hjk hnd2.1
        rw [show lookupLast ((j, v) :: rest) j =
          (match lookupLast rest j with
          | some v4 => some v4
          | none => if j = j then some v else none) from rfl, hnone, if_pos rfl]
      · have hl := ih (by simpa [mapKeys] using hnd2.2) hmem
        rw [show lookupLast ((k2, v2) :: rest) j =
          (match lookupLast rest j with
          | some v4 => some v4
          | none => if j = k2 then some v2 else none) from rfl, hl]

theorem newParentEntries_keys (fds : List GoFile) (names : List (List String)) :
    ∀ i, mapKeys (newParentEntries fds i names) = names.map fileNameOfSlice := by
  induction names with
  | nil => intro i; rfl
  | cons parts rest ih =>
      intro i
      rw [show mapKeys (newParentEntries fds i (parts :: rest)) =
        fileNameOfSlice parts :: mapKeys (newParentEntries fds (i + 1) rest) from rfl,
        ih (i + 1), List.map_cons]

theorem newParentEntries_mem_get (fds : List GoFile) (names : List (List String)) :
    ∀ (i j : Nat) (hj : j < names.length),
      (fileNameOfSlice (names.get ⟨j, hj⟩), (5 + i + j, inheritedAt fds (5 + i + j))) ∈
        newParentEntries fds i names := by
  induction names with
  | nil => intro i j hj; simp at hj
  | cons parts rest ih =>
      intro i j hj
      cases j with
      | zero => exact List.mem_cons_self _ _
      | succ j2 =>
          have h2 : j2 < rest.length := Nat.lt_of_succ_lt_succ hj
          have hmem := ih (i + 1) j2 h2
          have harith : 5 + (i + 1) + j2 = 5 + i + (j2 + 1) := by omega
          rw [harith] at hmem
          exact List.mem_cons_of_mem _ hmem

theorem newParentEntries_fd_ge (fds : List GoFile) (names : List (List String)) :
    ∀ i, ∀ e ∈ newParentEntries fds i names,
      5 + i ≤ e.2.1 ∧ e.2.2 = inheritedAt fds e.2.1 := by
  induction names with
  | nil => intro i e he; simp [newParentEntries] at he
  | cons parts rest ih =>
      intro i e he
      rcases List.mem_cons.mp he with rfl | hmem
      · exact ⟨Nat.le_refl _, rfl⟩
      · have h2 := ih (i + 1) e hmem
        exact ⟨le_trans (by omega) h2.1, h2.2⟩

/-- C1: for every passed-files map (as an iteration-order list with
distinct names) `startChild` encodes the name tuples and appends the
files in the same order, and `newParent` reconstructs a map whose keys
are exactly the registered names, in which the `i`-th encoded name is
bound to fd number `5 + i` — the fd slot holding the `i`-th passed
file — so every inherited fd is observed under the parent-registered
name at an fd number at least `5`. -/
theorem c1_fd_passing (std : List GoFile) (passed : List (FileName × GoFile))
    (hstd : std.length = 5) (hnd : (passed.map Prod.fst).Nodup) :
    (∀ k, (mapLookup (newParentFiles (startChildFds std passed) (encodedNames passed)) k).isSome
        ↔ k ∈ passed.map Prod.fst) ∧
    (∀ j (hj : j < passed.length),
        mapLookup (newParentFiles (startChildFds std passed) (encodedNames passed))
            (passed.get ⟨j, hj⟩).1 =
          some (5 + j, some (passed.get ⟨j, hj⟩).2)) ∧
    (∀ k fd c,
        mapLookup (newParentFiles (startChildFds std passed) (encodedNames passed)) k =
          some (fd, c) → 5 ≤ fd) := by
  have hN : encodedNames passed = passed.map (fun p => nameSlice p.1) := encodedNames_eq passed
  have hkeys : mapKeys (newParentEntries (startChildFds std passed) 0 (encodedNames passed)) =
      passed.map Prod.fst := by
    rw [newParentEntries_keys _ _ 0, hN, List.map_map]
    have : (fileNameOfSlice ∘ fun p : FileName × GoFile => nameSlice p.1) =
        fun p : FileName × GoFile => p.1 := by
      funext p
      exact fileNameOfSlice_nameSlice p.1
    rw [this]
  have hlook : ∀ k,
      mapLookup (newParentFiles (startChildFds std passed) (encodedNames passed)) k =
        lookupLast (newParentEntries (startChildFds std passed) 0 (encodedNames passed)) k := by
    intro k
    unfold newParentFiles
    exact mapLookup_buildMap _ k
  refine ⟨?_, ?_, ?_⟩
  · intro k
    rw [hlook k, lookupLast_isSome_iff, hkeys]
  · intro j hj
    have hjN : j < (encodedNames passed).length := by
      rw [hN, List.length_map]; exact hj
    have hget : (encodedNames passed).get ⟨j, hjN⟩ = nameSlice (passed.get ⟨j, hj⟩).1 := by
      have := List.get_of_eq hN ⟨j, hjN⟩
      rw [this, List.get_map]
    have hmem := newParentEntries_mem_get (startChildFds std passed) (encodedNames passed) 0 j hjN
    rw [hget, fileNameOfSlice_nameSlice] at hmem
    have hfd : inheritedAt (startChildFds std passed) (5 + 0 + j) =
        some (passed.get ⟨j, hj⟩).2 := by
      unfold inheritedAt startChildFds
      rw [show 5 + 0 + j = std.length + j by omega]
      rw [List.get?_append_right (Nat.le_add_right _ _)]
      rw [Nat.add_sub_cancel_left, List.get?_map, List.get?_eq_get hj]
      rfl
    rw [hfd] at hmem
    have hls := lookupLast_eq_of_nodup _ (by rw [hkeys]; exact hnd) _ _ hmem
    rw [hlook, hls]
  · intro k fd c h
    rw [hlook k] at h
    have hmem := lookupLast_mem _ k (fd, c) h
    have h5 : 5 + 0 ≤ fd :=
      (newParentEntries_fd_ge (startChildFds std passed) (encodedNames passed) 0
        (k, (fd, c)) hmem).1
    omega

/-- C1, witnessed: a single passed file registered as fd name "pid" is
observed by the child under the same name at fd 5, holding the passed
file. -/
theorem c1_fd_passing_witness :
    mapLookup (newParentFiles (startChildFds [0, 1, 2, 3, 4] [(⟨"fd", "pid", ""⟩, 9)])
        (encodedNames [(⟨"fd", "pid", ""⟩, 9)])) ⟨"fd", "pid", ""⟩ = some (5, some 9) :=
  (c1_fd_passing [0, 1, 2, 3, 4] [(⟨"fd", "pid", ""⟩, 9)] rfl (by decide)).2.1 0 (by decide)

end Tableflip
